import Mathlib

/-!
Verification of the feast-hive offline store (`feast_hive/offline_store.py` and
`feast_hive/hive.py`) against its natural-language specification.

The development shallowly embeds:
* the `MULTIPLE_FEATURE_VIEW_POINT_IN_TIME_JOIN` SQL template of
  `offline_store.py` (lines 319-467), CTE by CTE, as list-processing
  functions over entity rows and backing feature rows;
* `_upload_entity_df` (lines 250-314): schema mapping, chunked inserts and
  the statement trace issued on the connection;
* the retrieval-job materialization flow (`get_historical_features` /
  `HiveRetrievalJob.to_arrow`, lines 136-207) including the
  `contextlib.contextmanager` protocol around the staging-table teardown;
* the pyhive variant's `HiveRetrievalJob` constructor and the string-entity
  schema probe of `hive.py` (lines 157-204);
* the in-place `reset_index` on the caller's DataFrame (line 259).

Timestamps are embedded as `Int` (seconds), entity-key values as `String`
(the template always compares them after `CAST(... AS STRING)` inside the
surrogate key, and joins them by equality), and a feature value as a single
`Int` per feature view (the claims under study are all per feature value).
-/

namespace FeastHive

/-- One row of the entity dataframe handed to `get_historical_features`:
the entity-key column values (in the feature view's entity-column order)
and the entity event timestamp. -/
structure EntityRow where
  keys : List String
  ts : Int
  deriving Repr, DecidableEq

/-- One row of a feature view's backing table (`featureview.table_subquery`):
entity-key values, `event_timestamp_column` value, `created_timestamp_column`
value (meaningful only when the view configures one) and the feature value. -/
structure SourceRow where
  keys : List String
  eventTs : Int
  createdTs : Int
  feature : Int
  deriving Repr, DecidableEq

/-- A feature-view query context as consumed by the template: whether a
created-timestamp column is configured, the TTL in seconds (`0` meaning
unlimited) and the backing rows. -/
structure FeatureView where
  createdCol : Bool
  ttl : Int
  rows : List SourceRow
  deriving Repr, DecidableEq

/-- The join surrogate of the `entity_dataframe` CTE (offline_store.py lines
326-332): `CONCAT(CAST(k1 AS STRING), ..., CAST(entity_ts AS STRING))` —
the entity-key values and the entity timestamp concatenated with no
separator. -/
def entityRowUniqueId (e : EntityRow) : String :=
  String.join e.keys ++ toString e.ts

/-- `MAX` aggregate over a list of integers (`none` on the empty list, as SQL
yields `NULL`). -/
def listMax : List Int → Option Int
  | [] => none
  | a :: l =>
    some (match listMax l with
      | none => a
      | some m => max a m)

/-- `MIN` aggregate over a list of integers (`none` on the empty list). -/
def listMin : List Int → Option Int
  | [] => none
  | a :: l =>
    some (match listMin l with
      | none => a
      | some m => min a m)

/-- The entity timestamps of the staged entity table. -/
def entityTsList (ers : List EntityRow) : List Int :=
  ers.map (·.ts)

/-- The `{fv}__entity_dataframe` CTE (lines 339-346): `GROUP BY` the entity
keys, the entity timestamp and the surrogate key, i.e. the distinct entity
rows. -/
def fvEntityDataframe (ers : List EntityRow) : List EntityRow :=
  ers.dedup

/-- The `{fv}__subquery` CTE (lines 363-376): the backing rows pruned by the
batch-level prefilter `event_timestamp <= (SELECT MAX(entity_timestamp) ...)`
and, when `ttl != 0`,
`event_timestamp >= (SELECT MIN(entity_timestamp) ...) - ttl`.  When the
entity table is empty both scalar subqueries are `NULL` and the comparison
filters out every row. -/
def subqueryCte (fv : FeatureView) (ers : List EntityRow) : List SourceRow :=
  match listMax (entityTsList ers), listMin (entityTsList ers) with
  | some mx, some mn =>
    fv.rows.filter (fun s =>
      decide (s.eventTs ≤ mx) && (fv.ttl == 0 || decide (mn - fv.ttl ≤ s.eventTs)))
  | _, _ => []

/-- The per-row join predicate of the `{fv}__base` CTE (lines 383-394):
`event_timestamp <= entity_timestamp`, when `ttl != 0` additionally
`event_timestamp >= entity_timestamp - ttl`, and equality of every entity
key. -/
def joinPredB (fv : FeatureView) (s : SourceRow) (e : EntityRow) : Bool :=
  decide (s.eventTs ≤ e.ts)
    && (fv.ttl == 0 || decide (e.ts - fv.ttl ≤ s.eventTs))
    && (s.keys == e.keys)

/-- Proposition form of the temporal half of `joinPredB` — the qualifying
window of the point-in-time predicate. -/
def qualifies (fv : FeatureView) (s : SourceRow) (e : EntityRow) : Prop :=
  s.eventTs ≤ e.ts ∧ (fv.ttl = 0 ∨ e.ts - fv.ttl ≤ s.eventTs)

instance (fv : FeatureView) (s : SourceRow) (e : EntityRow) :
    Decidable (qualifies fv s e) := by
  unfold qualifies; infer_instance

/-- One row of the `{fv}__base` CTE: the backing row joined with the entity
row's timestamp and surrogate key. -/
structure BaseRow where
  src : SourceRow
  entityTs : Int
  uid : String
  deriving Repr, DecidableEq

/-- The `{fv}__base` CTE (lines 378-395): inner join of `{fv}__subquery`
with `{fv}__entity_dataframe` under `joinPredB`, carrying the entity
timestamp and the surrogate key alongside the backing row. -/
def baseCte (fv : FeatureView) (ers : List EntityRow) : List BaseRow :=
  (subqueryCte fv ers).flatMap (fun s =>
    (fvEntityDataframe ers).filterMap (fun e =>
      if joinPredB fv s e then some ⟨s, e.ts, entityRowUniqueId e⟩ else none))

/-- The `{fv}__dedup` CTE (lines 402-411, emitted only when a
created-timestamp column is configured):
`GROUP BY (entity_row_unique_id, event_timestamp)` with
`MAX(created_timestamp)`. -/
def dedupCte (fv : FeatureView) (ers : List EntityRow) : List (String × Int × Int) :=
  (((baseCte fv ers).map (fun r => (r.uid, r.src.eventTs))).dedup).map (fun p =>
    (p.1, p.2,
      (listMax (((baseCte fv ers).filter
        (fun r => r.uid == p.1 && r.src.eventTs == p.2)).map (·.src.createdTs))).getD 0))

/-- The `FROM`-clause of the `{fv}__latest` CTE (lines 424-428): the base
rows, inner-joined with `{fv}__dedup`
`USING (entity_row_unique_id, event_timestamp, created_timestamp)` when the
created-timestamp column is configured (which keeps exactly the base rows
whose created timestamp is the maximum of their
`(entity_row_unique_id, event_timestamp)` group), the plain base rows
otherwise. -/
def latestSource (fv : FeatureView) (ers : List EntityRow) : List BaseRow :=
  if fv.createdCol then
    (baseCte fv ers).filter (fun r => (dedupCte fv ers).any (fun d =>
      d.1 == r.uid && d.2.1 == r.src.eventTs && d.2.2 == r.src.createdTs))
  else baseCte fv ers

/-- The `{fv}__latest` CTE (lines 416-431): `GROUP BY entity_row_unique_id`
with `MAX(event_timestamp)` and, when the created-timestamp column is
configured, `ANY_VALUE(created_timestamp)`.  `ANY_VALUE` returns an
arbitrary value of the group; it is modelled here as the value of the first
group member in base-row order (one admissible resolution of the
nondeterminism). -/
def latestCte (fv : FeatureView) (ers : List EntityRow) : List (String × Int × Option Int) :=
  (((latestSource fv ers).map (·.uid)).dedup).map (fun u =>
    (u,
     (listMax (((latestSource fv ers).filter (fun r => r.uid == u)).map (·.src.eventTs))).getD 0,
     if fv.createdCol then
       some ((((latestSource fv ers).filter (fun r => r.uid == u)).map (·.src.createdTs)).headD 0)
     else none))

/-- The `{fv}__cleaned` CTE (lines 436-447): the base rows inner-joined with
`{fv}__latest` `USING (entity_row_unique_id, event_timestamp)` and, when the
created-timestamp column is configured, also `created_timestamp`.  Since
`{fv}__latest` holds one row per surrogate key, the join is a filter against
the (unique) latest entry of the row's surrogate key. -/
def cleanedCte (fv : FeatureView) (ers : List EntityRow) : List BaseRow :=
  (baseCte fv ers).filter (fun b =>
    match (latestCte fv ers).find? (fun p => p.1 == b.uid) with
    | none => false
    | some p => b.src.eventTs == p.2.1 && (!fv.createdCol || some b.src.createdTs == p.2.2))

/-- One `LEFT JOIN ... USING (entity_row_unique_id)` of the final `SELECT`
(lines 455-466), restricted to the feature column: the features of the
cleaned rows carrying the given surrogate key, or a single `NULL` when none
match. -/
def leftJoinFeatures (c : List BaseRow) (u : String) : List (Option Int) :=
  if (c.filter (fun b => b.uid == u)).isEmpty then [none]
  else (c.filter (fun b => b.uid == u)).map (fun b => some b.src.feature)

/-- Row multiplication of the chained `LEFT JOIN`s: the cartesian product of
the per-feature-view match lists. -/
def listProd : List (List (Option Int)) → List (List (Option Int))
  | [] => [[]]
  | l :: ls => l.flatMap (fun x => (listProd ls).map (fun r => x :: r))

/-- One row of the final `SELECT * FROM entity_dataframe LEFT JOIN ...`:
the original entity row, the `entity_timestamp` alias column added by the
`entity_dataframe` CTE (line 325), and one resolved feature value
(possibly `NULL`) per feature view. -/
structure OutRow where
  entity : EntityRow
  entityTimestamp : Int
  features : List (Option Int)
  deriving Repr, DecidableEq

/-- The final `SELECT` of the template (lines 455-466): every
`entity_dataframe` row (the entity input is not deduplicated there — only
the per-view `{fv}__entity_dataframe` CTEs group), left-joined with each
feature view's cleaned rows by the surrogate key. -/
def pointInTimeJoin (fvs : List FeatureView) (ers : List EntityRow) : List OutRow :=
  ers.flatMap (fun e =>
    (listProd (fvs.map (fun fv =>
      leftJoinFeatures (cleanedCte fv ers) (entityRowUniqueId e)))).map
      (fun fs => ⟨e, e.ts, fs⟩))

/-- The qualifying backing rows of a feature view for one entity row:
entity keys equal and inside the point-in-time window. -/
def qualRows (fv : FeatureView) (e : EntityRow) : List SourceRow :=
  fv.rows.filter (fun s => joinPredB fv s e)

/-- The maximum qualifying event timestamp of a feature view for one entity
row (`none` when no backing row qualifies). -/
def maxQualTs (fv : FeatureView) (e : EntityRow) : Option Int :=
  listMax ((qualRows fv e).map (·.eventTs))

/-! ## Entity staging (`_upload_entity_df`, offline_store.py lines 246-314) -/

/-- A statement issued on the Hive connection.  `insertChunk n` is a
multi-row `INSERT INTO TABLE ... VALUES ...` statement carrying `n` rows;
`selectQuery` is the compiled point-in-time query; `dropTable` the
staging-table teardown `DROP TABLE`. -/
inductive HiveStmt where
  | createTable
  | insertChunk (n : Nat)
  | selectQuery
  | dropTable
  deriving Repr, DecidableEq

/-- A column of the entity DataFrame: its name and its pyarrow type name
(as produced by `str(field.type)`). -/
structure DfColumn where
  name : String
  dtype : String
  deriving Repr, DecidableEq

/-- The caller's entity DataFrame, as far as the claims need it: its pandas
index (one entry per row; row values are irrelevant to every claim under
study) and its column schema. -/
structure EntityDf where
  index : List Int
  cols : List DfColumn
  deriving Repr, DecidableEq

/-- The row count of the DataFrame (`len(pa_table)` — in pandas the index
has one entry per row). -/
def EntityDf.nrows (df : EntityDf) : Nat :=
  df.index.length

/-- Modelled from the spec: `feast_hive.type_map.pa_to_hive_value_type` is
imported by offline_store.py (line 20) but its module is not part of the
sources at hand.  Spec §4.1: a partial map from backend-independent column
types to Hive type names, total on
int32/int64/float32/float64/bool/string/timestamp/date/binary and yielding
an explicit unsupported marker (here `none`, the source checks falsiness)
on anything else — never coercing unknown types to string. -/
def pa_to_hive_value_type (t : String) : Option String :=
  if t = "int32" then some "int"
  else if t = "int64" then some "bigint"
  else if t = "float" then some "float"
  else if t = "double" then some "double"
  else if t = "bool" then some "boolean"
  else if t = "string" then some "string"
  else if t = "timestamp[us]" then some "timestamp"
  else if t = "date32[day]" then some "date"
  else if t = "binary" then some "binary"
  else none

/-- The schema-mapping loop of `_upload_entity_df` (lines 262-267): map each
column type in order, raising (`.error`) at the first column whose type has
no Hive mapping.  The loop runs before any cursor is opened (line 269). -/
def mapSchema : List DfColumn → Except String (List (String × String))
  | [] => .ok []
  | c :: cs =>
    match pa_to_hive_value_type c.dtype with
    | none => .error c.dtype
    | some h => (mapSchema cs).map (fun r => (c.name, h) :: r)

/-- Chunk sizes produced by `pa_table.to_batches(chunk_size)` on an `n`-row
table: batches of `k` rows, the last one possibly smaller; no batch for an
empty table.  Structural recursion on a fuel argument kept at least `n`
so that the definition reduces in the kernel. -/
def chunkSizesAux (k : Nat) : Nat → Nat → List Nat
  | _, 0 => []
  | 0, _ + 1 => []
  | fuel + 1, n + 1 =>
    if n + 1 ≤ k then [n + 1] else k :: chunkSizesAux k fuel (n + 1 - k)

/-- Chunk sizes of the upload loop (lines 299-314). `k = 0` can only arise
for an empty table (the source sets the chunk size to the row count when
the configured size is non-positive). -/
def chunkSizes (k n : Nat) : List Nat :=
  if k = 0 then [] else chunkSizesAux k n n

/-- The effective chunk size of `_upload_entity_df` (lines 293-298): the
whole row count when the configured `_ENTITY_UPLOADING_CHUNK_SIZE` is
non-positive, the configured size otherwise. -/
def effectiveChunkSize (cfgChunk : Int) (n : Nat) : Nat :=
  if cfgChunk ≤ 0 then n else cfgChunk.toNat

/-- The default `_ENTITY_UPLOADING_CHUNK_SIZE` (line 247). -/
def defaultChunkSize : Int := 10000

/-- `_upload_entity_df` (lines 250-314), abstracted to the statement trace
issued on the connection and the raised error, parameterized by the
configured chunk size: the schema-mapping loop runs first and raises before
any statement when a column type is unsupported; otherwise one
`CREATE TABLE` is issued, followed by one `INSERT` per chunk, in input
order. -/
def uploadRun (cfgChunk : Int) (df : EntityDf) : List HiveStmt × Option String :=
  match mapSchema df.cols with
  | .error t => ([], some t)
  | .ok _ =>
    (HiveStmt.createTable ::
      (chunkSizes (effectiveChunkSize cfgChunk df.nrows) df.nrows).map HiveStmt.insertChunk,
     none)

/-! ## Retrieval-job materialization (offline_store.py lines 136-207) -/

/-- The `contextlib.contextmanager` protocol driving
`HiveRetrievalJob.to_arrow`: the generator runs its pre-`yield` statements
(`pre`), the `with`-body runs (`body`); on body success the generator is
resumed and runs its post-`yield` statements (`post`); on body failure the
exception is thrown into the generator at the `yield`, and the post-`yield`
statements run only if the generator guards the `yield` with
`try`/`finally`.  Returns the statement trace and whether the call
succeeded. -/
def runWithCtxManager (pre post body : List HiveStmt) (guarded bodyFails : Bool) :
    List HiveStmt × Bool :=
  if bodyFails then
    (pre ++ body ++ (if guarded then post else []), false)
  else
    (pre ++ body ++ post, true)

/-- `query_generator` of `get_historical_features` (lines 136-173) does not
wrap its `yield query` in `try`/`finally`: the `DROP TABLE` teardown at
lines 172-173 is plain straight-line code after the `yield`. -/
def queryGeneratorYieldGuarded : Bool := false

/-- The statement trace of `HiveRetrievalJob.to_arrow` (lines 198-207) for a
historical-retrieval job: setup = `_upload_entity_df` (staging the entity
table), body = executing the compiled query and fetching its result
(`bodyFails` covers a raise in either), teardown = `DROP TABLE` of the
staging table.  If setup itself raises, neither body nor teardown run. -/
def historicalToArrowTrace (cfgChunk : Int) (df : EntityDf) (bodyFails : Bool) :
    List HiveStmt × Bool :=
  match uploadRun cfgChunk df with
  | (tr, some _) => (tr, false)
  | (tr, none) =>
    runWithCtxManager tr [HiveStmt.dropTable] [HiveStmt.selectQuery]
      queryGeneratorYieldGuarded bodyFails

/-! ## The pyhive variant's retrieval job (`hive.py` lines 157-204) -/

/-- An argument of the pyhive `HiveRetrievalJob` constructor: either a
connection object (identified by an id) or a string. -/
inductive ConnOrStr where
  | conn (id : Nat)
  | str (s : String)
  deriving Repr, DecidableEq

/-- The pyhive `HiveRetrievalJob` (hive.py lines 157-160): `__init__` takes
`(query, conn)` in that order and stores them untyped. -/
structure PyhiveRetrievalJob where
  query : ConnOrStr
  conn : ConnOrStr
  deriving Repr, DecidableEq

/-- hive.py line 158: `def __init__(self, query, conn)` — positional
assignment of the two constructor arguments. -/
def mkPyhiveRetrievalJob (query conn : ConnOrStr) : PyhiveRetrievalJob :=
  ⟨query, conn⟩

/-- The probe SQL text built at hive.py line 200. -/
def probeSql (tableName : String) : String :=
  "SELECT * FROM " ++ tableName ++ " LIMIT 1"

/-- The one-row schema probe of `_upload_entity_df_and_get_entity_schema`
for a string entity input (hive.py lines 199-201):
`HiveRetrievalJob(conn, f"SELECT * FROM ... LIMIT 1")` — the connection is
passed as the first positional argument and the query text as the
second. -/
def schemaProbeJob (connId : Nat) (tableName : String) : PyhiveRetrievalJob :=
  mkPyhiveRetrievalJob (ConnOrStr.conn connId) (ConnOrStr.str (probeSql tableName))

/-- `HiveRetrievalJob.to_df` (hive.py lines 162-167): `self.conn.cursor()`
then `cursor.execute(self.query)` — the query actually executed, when the
stored `conn` is a connection object and the stored `query` a string;
`none` models the `AttributeError`/type failure otherwise. -/
def pyhiveToDfExecutedQuery (j : PyhiveRetrievalJob) : Option String :=
  match j.conn, j.query with
  | ConnOrStr.conn _, ConnOrStr.str q => some q
  | _, _ => none

/-! ## In-place index reset (offline_store.py line 259 / hive.py line 220) -/

/-- The pandas default `RangeIndex` of an `n`-row frame. -/
def defaultRangeIndex (n : Nat) : List Int :=
  (List.range n).map (fun i => (i : Int))

/-- `entity_df.reset_index(drop=True, inplace=True)` (offline_store.py line
259, identically hive.py line 220): the index of the caller's DataFrame
object is replaced, in place, by the default `RangeIndex`; the old index is
dropped. -/
def resetIndexDropInplace (df : EntityDf) : EntityDf :=
  { df with index := defaultRangeIndex df.nrows }

/-- The caller-visible state of the `entity_df` argument once
`_upload_entity_df` has passed line 259 (whether or not the upload later
succeeds): the mutation of line 259 applied to the caller's object. -/
def uploadCallerVisibleDf (df : EntityDf) : EntityDf :=
  resetIndexDropInplace df

/-! ## Shape of the rendered query text (offline_store.py lines 319-467)

Only the comma structure of the `WITH` clause matters to the claims; the
CTE bodies are abbreviated placeholders. -/

/-- The `entity_dataframe` CTE text (lines 323-335). -/
def entityDataframeCteText : String :=
  "WITH entity_dataframe AS (SELECT *, <entity_ts_col> AS entity_timestamp, " ++
    "<one CONCAT surrogate per feature view> FROM <left_table>)"

/-- The CTE block one feature view contributes (lines 337-447, from
`{fv}__entity_dataframe` through `{fv}__cleaned`). -/
def fvCteBlockText (fvName : String) : String :=
  fvName ++ "__entity_dataframe AS (...), " ++ fvName ++ "__subquery AS (...), " ++
    fvName ++ "__base AS (...), " ++ fvName ++ "__latest AS (...), " ++
    fvName ++ "__cleaned AS (...)"

/-- The final select (lines 455-466). -/
def finalSelectText : String :=
  "SELECT * FROM entity_dataframe <one LEFT JOIN per feature view>"

/-- The top-level pieces of the rendered
`MULTIPLE_FEATURE_VIEW_POINT_IN_TIME_JOIN` text, with the comma separators
exactly as the template emits them: the `entity_dataframe` CTE is always
followed by a comma (line 335); each feature view's block is followed by a
comma unless it is the last (`loop.last`, line 447); then the final
`SELECT`. -/
def queryPieces (fvNames : List String) : List String :=
  [entityDataframeCteText, ","]
    ++ fvNames.enum.flatMap (fun p =>
        [fvCteBlockText p.2] ++ (if p.1 + 1 = fvNames.length then [] else [","]))
    ++ [finalSelectText]

/-- The rendered query text (whitespace normalized). -/
def renderedQuery (fvNames : List String) : String :=
  String.join (queryPieces fvNames)

/-- Whether the rendered `WITH` clause ends with a dangling comma: the piece
immediately preceding the final `SELECT` is a bare comma separator — which
makes the statement unexecutable SQL. -/
def danglingCteComma (fvNames : List String) : Bool :=
  match (queryPieces fvNames).dropLast.getLast? with
  | some s => s == ","
  | none => false

/-! ## Concrete instances used by counterexamples and witnesses -/

/-- Entity DataFrame whose second column has a pyarrow type with no Hive
mapping (a nested list type). -/
def dfBadW : EntityDf :=
  ⟨[0], [⟨"driver_id", "int64"⟩, ⟨"tags", "list<item: string>"⟩]⟩

/-- Well-typed three-row entity DataFrame. -/
def dfOkW : EntityDf :=
  ⟨[0, 1, 2], [⟨"driver_id", "int64"⟩, ⟨"event_timestamp", "timestamp[us]"⟩]⟩

/-- Well-typed one-row entity DataFrame. -/
def dfJobW : EntityDf :=
  ⟨[0], [⟨"driver_id", "int64"⟩]⟩

/-- One-row entity DataFrame with a non-default pandas index. -/
def dfIdxW : EntityDf :=
  ⟨[5], [⟨"driver_id", "int64"⟩]⟩

/-- Two entity rows with different key values whose surrogate keys collide:
`CONCAT("ab","c","20") = CONCAT("a","bc","20")`. -/
def ersC1 : List EntityRow := [⟨["xy", "z"], 20⟩, ⟨["x", "yz"], 20⟩]

/-- A view whose single backing row matches only the first row of `ersC1`. -/
def fvC1 : FeatureView := ⟨false, 0, [⟨["xy", "z"], 15, 0, 7⟩]⟩

/-- A single entity row. -/
def ersC2 : List EntityRow := [⟨["k"], 10⟩]

/-- A view (no created-timestamp column) whose backing table holds two rows
tied at the maximum qualifying event timestamp. -/
def fvC2 : FeatureView := ⟨false, 0, [⟨["k"], 5, 0, 1⟩, ⟨["k"], 5, 0, 2⟩]⟩

/-- A single entity row at timestamp 10. -/
def ersC3 : List EntityRow := [⟨["k"], 10⟩]

/-- A view with a created-timestamp column and two qualifying backing rows
at distinct event timestamps 5 and 7, the earlier one carrying the larger
created timestamp. -/
def fvC3 : FeatureView := ⟨true, 0, [⟨["k"], 5, 9, 100⟩, ⟨["k"], 7, 3, 200⟩]⟩

/-- Colliding entity rows for the surrogate-key claim. -/
def ersC10 : List EntityRow := [⟨["ab", "c"], 10⟩, ⟨["a", "bc"], 10⟩]

/-- A view whose single backing row matches only the first row of `ersC10`. -/
def fvC10 : FeatureView := ⟨false, 0, [⟨["ab", "c"], 5, 0, 42⟩]⟩

/-- Two entity rows for the amended-claim witnesses. -/
def ersW : List EntityRow := [⟨["1"], 10⟩, ⟨["2"], 10⟩]

/-- A view with two qualifying backing rows for entity key "1" and none for
"2". -/
def fvsW : List FeatureView :=
  [⟨false, 0, [⟨["1"], 9, 0, 5⟩]⟩]

/-- A view used by the point-in-time witness: two backing rows for key "1"
at event timestamps 9 and 5. -/
def fvsW2 : List FeatureView :=
  [⟨false, 0, [⟨["1"], 9, 0, 5⟩, ⟨["1"], 5, 0, 9⟩]⟩]

/-- A single entity row for the point-in-time witness. -/
def ersW1 : List EntityRow := [⟨["1"], 10⟩]

/-- The output row the point-in-time witness inspects. -/
def oW : OutRow := ⟨⟨["1"], 10⟩, 10, [some 5]⟩

/-! ## Generic lemmas about the aggregate and list helpers -/

theorem listMax_eq_none {l : List Int} : listMax l = none ↔ l = [] := by
  cases l <;> simp [listMax]

theorem listMax_mem : ∀ {l : List Int} {m : Int}, listMax l = some m → m ∈ l := by
  intro l
  induction l with
  | nil => intro m h; simp [listMax] at h
  | cons a t ih =>
    intro m h
    simp only [listMax] at h
    cases ht : listMax t with
    | none =>
      rw [ht] at h
      simp only [Option.some.injEq] at h
      exact h ▸ List.mem_cons_self a t
    | some mt =>
      rw [ht] at h
      simp only [Option.some.injEq] at h
      rcases max_choice a mt with h1 | h1
      · exact (h ▸ h1) ▸ List.mem_cons_self a t
      · exact List.mem_cons_of_mem a ((h ▸ h1) ▸ ih ht)

theorem le_listMax : ∀ {l : List Int} {m a : Int}, listMax l = some m → a ∈ l → a ≤ m := by
  intro l
  induction l with
  | nil => intro m a _ ha; simp at ha
  | cons x t ih =>
    intro m a h ha
    simp only [listMax] at h
    rcases List.mem_cons.mp ha with rfl | hat
    · cases ht : listMax t with
      | none => rw [ht] at h; simp only [Option.some.injEq] at h; omega
      | some mt =>
        rw [ht] at h; simp only [Option.some.injEq] at h
        subst h; exact le_max_left a mt
    · cases ht : listMax t with
      | none =>
        rw [listMax_eq_none.mp ht] at hat
        simp at hat
      | some mt =>
        rw [ht] at h; simp only [Option.some.injEq] at h
        subst h; exact le_trans (ih ht hat) (le_max_right x mt)

theorem listMax_congr {l1 l2 : List Int} (h : ∀ x, x ∈ l1 ↔ x ∈ l2) :
    listMax l1 = listMax l2 := by
  cases h1 : listMax l1 with
  | none =>
    cases h2 : listMax l2 with
    | none => rfl
    | some m2 =>
      have : m2 ∈ l1 := (h m2).mpr (listMax_mem h2)
      rw [listMax_eq_none.mp h1] at this
      simp at this
  | some m1 =>
    cases h2 : listMax l2 with
    | none =>
      have : m1 ∈ l2 := (h m1).mp (listMax_mem h1)
      rw [listMax_eq_none.mp h2] at this
      simp at this
    | some m2 =>
      have hle1 : m1 ≤ m2 := le_listMax h2 ((h m1).mp (listMax_mem h1))
      have hle2 : m2 ≤ m1 := le_listMax h1 ((h m2).mpr (listMax_mem h2))
      exact congrArg some (le_antisymm hle1 hle2)

theorem listMin_eq_none {l : List Int} : listMin l = none ↔ l = [] := by
  cases l <;> simp [listMin]

theorem listMin_le : ∀ {l : List Int} {m a : Int}, listMin l = some m → a ∈ l → m ≤ a := by
  intro l
  induction l with
  | nil => intro m a _ ha; simp at ha
  | cons x t ih =>
    intro m a h ha
    simp only [listMin] at h
    rcases List.mem_cons.mp ha with rfl | hat
    · cases ht : listMin t with
      | none => rw [ht] at h; simp only [Option.some.injEq] at h; omega
      | some mt =>
        rw [ht] at h; simp only [Option.some.injEq] at h
        subst h; exact min_le_left a mt
    · cases ht : listMin t with
      | none =>
        rw [listMin_eq_none.mp ht] at hat
        simp at hat
      | some mt =>
        rw [ht] at h; simp only [Option.some.injEq] at h
        subst h; exact le_trans (min_le_right x mt) (ih ht hat)

theorem countP_congr' {α : Type} (l : List α) (p q : α → Bool)
    (h : ∀ a ∈ l, p a = q a) : l.countP p = l.countP q := by
  induction l with
  | nil => rfl
  | cons a t ih =>
    simp only [List.countP_cons]
    rw [h a (List.mem_cons_self a t), ih (fun x hx => h x (List.mem_cons_of_mem a hx))]

theorem countP_flatMap {α β : Type} (l : List α) (f : α → List β) (p : β → Bool) :
    (l.flatMap f).countP p = (l.map (fun a => (f a).countP p)).sum := by
  induction l with
  | nil => rfl
  | cons a t ih => simp [List.flatMap_cons, List.countP_append, ih]

theorem countP_filter' {α : Type} (l : List α) (p q : α → Bool) :
    (l.filter p).countP q = l.countP (fun a => p a && q a) := by
  induction l with
  | nil => rfl
  | cons a t ih =>
    simp only [List.filter_cons]
    cases hp : p a <;> simp [List.countP_cons, ih, hp]

theorem sum_map_ite {α : Type} (l : List α) (c : α → Bool) :
    (l.map (fun a => if c a then 1 else 0)).sum = l.countP c := by
  induction l with
  | nil => rfl
  | cons a t ih =>
    simp only [List.map_cons, List.sum_cons, List.countP_cons, ih]
    cases c a <;> simp <;> omega

theorem find?_map_key {β : Type} (us : List String) (F : String → β) (u : String)
    (hu : u ∈ us) :
    (us.map (fun x => (x, F x))).find? (fun p => p.1 == u) = some (u, F u) := by
  induction us with
  | nil => simp at hu
  | cons x t ih =>
    simp only [List.map_cons, List.find?_cons]
    cases hx : x == u with
    | true =>
      have : x = u := eq_of_beq hx
      subst this
      simp
    | false =>
      have hxu : x ≠ u := fun h => by simp [h] at hx
      simp only [hx]
      exact ih ((List.mem_cons.mp hu).resolve_left (fun h => hxu h.symm))

theorem listProd_mem_length : ∀ {ls : List (List (Option Int))} {l : List (Option Int)},
    l ∈ listProd ls → l.length = ls.length := by
  intro ls
  induction ls with
  | nil => intro l hl; simp [listProd] at hl; simp [hl]
  | cons x t ih =>
    intro l hl
    simp only [listProd, List.mem_flatMap, List.mem_map] at hl
    obtain ⟨a, _, r, hr, rfl⟩ := hl
    simp [ih hr]

theorem listProd_mem_get : ∀ {ls : List (List (Option Int))} {l : List (Option Int)},
    l ∈ listProd ls → ∀ (i : Nat) (hi : i < l.length) (hi2 : i < ls.length),
      l.get ⟨i, hi⟩ ∈ ls.get ⟨i, hi2⟩ := by
  intro ls
  induction ls with
  | nil => intro l _ i _ hi2; simp at hi2
  | cons x t ih =>
    intro l hl i hi hi2
    simp only [listProd, List.mem_flatMap, List.mem_map] at hl
    obtain ⟨a, ha, r, hr, rfl⟩ := hl
    cases i with
    | zero => simpa using ha
    | succ j =>
      simp only [List.get_cons_succ]
      exact ih hr j (by simpa using hi) (by simpa using hi2)

theorem listProd_length (ls : List (List (Option Int))) :
    (listProd ls).length = (ls.map List.length).prod := by
  induction ls with
  | nil => rfl
  | cons x t ih =>
    simp only [listProd, List.length_flatMap, List.map_map, List.map_cons, List.prod_cons]
    have : (fun a => ((listProd t).map (fun r => a :: r)).length) ∘ id =
        fun _ : Option Int => (listProd t).length := by
      funext a; simp
    simp only [Function.comp_def, List.length_map]
    rw [List.map_const', List.sum_const_nat, ih]

theorem chunkSizesAux_zero (k fuel : Nat) : chunkSizesAux k fuel 0 = [] := by
  cases fuel
  · rfl
  · rfl

theorem chunkSizesAux_sum (k : Nat) (hk : 0 < k) :
    ∀ (fuel n : Nat), n ≤ fuel → (chunkSizesAux k fuel n).sum = n := by
  intro fuel
  induction fuel with
  | zero => intro n hn; interval_cases n; rfl
  | succ f ih =>
    intro n hn
    cases n with
    | zero => rfl
    | succ m =>
      show (if m + 1 ≤ k then [m + 1] else k :: chunkSizesAux k f (m + 1 - k)).sum = m + 1
      split
      · simp
      · rename_i hgt
        simp only [List.sum_cons]
        rw [ih (m + 1 - k) (by omega)]
        omega

theorem chunkSizesAux_length (k : Nat) (hk : 0 < k) :
    ∀ (fuel n : Nat), n ≤ fuel → (chunkSizesAux k fuel n).length = (n + k - 1) / k := by
  intro fuel
  induction fuel with
  | zero =>
    intro n hn
    interval_cases n
    rw [chunkSizesAux_zero]
    simp only [List.length_nil]
    rw [Nat.div_eq_of_lt (by omega)]
  | succ f ih =>
    intro n hn
    cases n with
    | zero =>
      rw [chunkSizesAux_zero]
      simp only [List.length_nil]
      rw [Nat.div_eq_of_lt (by omega)]
    | succ m =>
      show (if m + 1 ≤ k then [m + 1] else k :: chunkSizesAux k f (m + 1 - k)).length
          = (m + 1 + k - 1) / k
      split
      · rename_i hle
        have : m + 1 + k - 1 = m + k := by omega
        rw [this]
        simp only [List.length_singleton]
        exact (Nat.div_eq_of_lt_le (by omega) (by omega)).symm
      · rename_i hgt
        simp only [List.length_cons]
        rw [ih (m + 1 - k) (by omega)]
        have h1 : m + 1 - k + k - 1 = m := by omega
        have h2 : m + 1 + k - 1 = m + k := by omega
        rw [h1, h2, Nat.add_div_right m hk]

theorem chunkSizes_sum (k n : Nat) (h : k = 0 → n = 0) : (chunkSizes k n).sum = n := by
  unfold chunkSizes
  split
  · rename_i hk; simp [h hk]
  · rename_i hk; exact chunkSizesAux_sum k (by omega) n n le_rfl

theorem chunkSizes_length (k n : Nat) (hk : 0 < k) :
    (chunkSizes k n).length = (n + k - 1) / k := by
  unfold chunkSizes
  split
  · omega
  · exact chunkSizesAux_length k hk n n le_rfl

theorem chunkSizes_self (n : Nat) (hn : 0 < n) : chunkSizes n n = [n] := by
  unfold chunkSizes
  split
  · omega
  · cases n with
    | zero => omega
    | succ m =>
      show (if m + 1 ≤ m + 1 then [m + 1] else _) = [m + 1]
      simp

theorem mapSchema_ok {cols : List DfColumn}
    (h : ∀ c ∈ cols, (pa_to_hive_value_type c.dtype).isSome = true) :
    ∃ r, mapSchema cols = .ok r := by
  induction cols with
  | nil => exact ⟨[], rfl⟩
  | cons c t ih =>
    have hc := h c (List.mem_cons_self c t)
    obtain ⟨v, hv⟩ := Option.isSome_iff_exists.mp hc
    obtain ⟨r, hr⟩ := ih (fun x hx => h x (List.mem_cons_of_mem c hx))
    refine ⟨(c.name, v) :: r, ?_⟩
    simp [mapSchema, hv, hr, Except.map]

theorem mapSchema_error {cols : List DfColumn}
    (h : ∃ c ∈ cols, pa_to_hive_value_type c.dtype = none) :
    ∃ t, mapSchema cols = .error t := by
  induction cols with
  | nil => simp at h
  | cons c t ih =>
    cases hc : pa_to_hive_value_type c.dtype with
    | none => exact ⟨c.dtype, by simp [mapSchema, hc]⟩
    | some v =>
      obtain ⟨x, hx, hxn⟩ := h
      rcases List.mem_cons.mp hx with rfl | hxt
      · rw [hc] at hxn; cases hxn
      · obtain ⟨msg, hmsg⟩ := ih ⟨x, hxt, hxn⟩
        exact ⟨msg, by simp [mapSchema, hc, hmsg, Except.map]⟩

/-! ## Lemmas about the point-in-time pipeline -/

theorem joinPredB_iff {fv : FeatureView} {s : SourceRow} {e : EntityRow} :
    joinPredB fv s e = true ↔ s.keys = e.keys ∧ qualifies fv s e := by
  simp only [joinPredB, qualifies, Bool.and_eq_true, Bool.or_eq_true, decide_eq_true_eq,
    beq_iff_eq]
  tauto

theorem mem_subqueryCte_rows {fv : FeatureView} {ers : List EntityRow} {s : SourceRow}
    (h : s ∈ subqueryCte fv ers) : s ∈ fv.rows := by
  unfold subqueryCte at h
  split at h
  · exact List.mem_of_mem_filter h
  · simp at h

theorem prefilter_of_joinPred {fv : FeatureView} {ers : List EntityRow} {s : SourceRow}
    {e : EntityRow} {mx mn : Int}
    (hmx : listMax (entityTsList ers) = some mx) (hmn : listMin (entityTsList ers) = some mn)
    (he : e ∈ ers) (hq : joinPredB fv s e = true) :
    (decide (s.eventTs ≤ mx) && (fv.ttl == 0 || decide (mn - fv.ttl ≤ s.eventTs))) = true := by
  have hts : e.ts ∈ entityTsList ers := List.mem_map_of_mem (·.ts) he
  have h1 : e.ts ≤ mx := le_listMax hmx hts
  have h2 : mn ≤ e.ts := listMin_le hmn hts
  rw [joinPredB_iff] at hq
  obtain ⟨-, hq1, hq2⟩ := hq
  simp only [Bool.and_eq_true, Bool.or_eq_true, decide_eq_true_eq, beq_iff_eq]
  omega

theorem entityTs_max_min {ers : List EntityRow} {e : EntityRow} (he : e ∈ ers) :
    ∃ mx mn, listMax (entityTsList ers) = some mx ∧ listMin (entityTsList ers) = some mn := by
  have hts : e.ts ∈ entityTsList ers := List.mem_map_of_mem (·.ts) he
  have hne : entityTsList ers ≠ [] := by
    intro h0
    rw [h0] at hts
    simp at hts
  cases hmx : listMax (entityTsList ers) with
  | none => exact absurd (listMax_eq_none.mp hmx) hne
  | some mx =>
    cases hmn : listMin (entityTsList ers) with
    | none => exact absurd (listMin_eq_none.mp hmn) hne
    | some mn => exact ⟨mx, mn, rfl, rfl⟩

theorem subqueryCte_of_mem {fv : FeatureView} {ers : List EntityRow} {s : SourceRow}
    {e : EntityRow} (he : e ∈ ers) (hs : s ∈ fv.rows) (hq : joinPredB fv s e = true) :
    s ∈ subqueryCte fv ers := by
  obtain ⟨mx, mn, hmx, hmn⟩ := entityTs_max_min he
  unfold subqueryCte
  rw [hmx, hmn]
  exact List.mem_filter.mpr ⟨hs, prefilter_of_joinPred hmx hmn he hq⟩

theorem mem_baseCte {fv : FeatureView} {ers : List EntityRow} {b : BaseRow} :
    b ∈ baseCte fv ers ↔
      ∃ s ∈ subqueryCte fv ers, ∃ e ∈ fvEntityDataframe ers,
        joinPredB fv s e = true ∧ b = ⟨s, e.ts, entityRowUniqueId e⟩ := by
  unfold baseCte
  rw [List.mem_flatMap]
  constructor
  · rintro ⟨s, hs, hb⟩
    rw [List.mem_filterMap] at hb
    obtain ⟨e, he, heq⟩ := hb
    rw [ite_some_none_eq_some] at heq
    exact ⟨s, hs, e, he, heq.1, heq.2.symm⟩
  · rintro ⟨s, hs, e, he, hpred, rfl⟩
    exact ⟨s, hs, List.mem_filterMap.mpr
      ⟨e, he, by rw [ite_some_none_eq_some]; exact ⟨hpred, rfl⟩⟩⟩

theorem base_of_qual {fv : FeatureView} {ers : List EntityRow} {s : SourceRow} {e : EntityRow}
    (he : e ∈ ers) (hs : s ∈ fv.rows) (hq : joinPredB fv s e = true) :
    (⟨s, e.ts, entityRowUniqueId e⟩ : BaseRow) ∈ baseCte fv ers :=
  mem_baseCte.mpr ⟨s, subqueryCte_of_mem he hs hq, e, List.mem_dedup.mpr he, hq, rfl⟩

theorem mem_base_uid {fv : FeatureView} {ers : List EntityRow} {e : EntityRow} {b : BaseRow}
    (hinj : ∀ e1 ∈ ers, ∀ e2 ∈ ers, entityRowUniqueId e1 = entityRowUniqueId e2 → e1 = e2)
    (he : e ∈ ers) (hb : b ∈ baseCte fv ers) (huid : b.uid = entityRowUniqueId e) :
    ∃ s ∈ fv.rows, joinPredB fv s e = true ∧ b = ⟨s, e.ts, entityRowUniqueId e⟩ := by
  obtain ⟨s, hs, e2, he2, hpred, rfl⟩ := mem_baseCte.mp hb
  have he2m : e2 ∈ ers := List.mem_dedup.mp he2
  have he2e : e2 = e := hinj e2 he2m e he huid
  subst he2e
  exact ⟨s, mem_subqueryCte_rows hs, hpred, rfl⟩

theorem latestSource_subset {fv : FeatureView} {ers : List EntityRow} {r : BaseRow}
    (h : r ∈ latestSource fv ers) : r ∈ baseCte fv ers := by
  unfold latestSource at h
  split at h
  · exact List.mem_of_mem_filter h
  · exact h

theorem latestSource_cover {fv : FeatureView} {ers : List EntityRow} {r : BaseRow}
    (hr : r ∈ baseCte fv ers) :
    ∃ r2 ∈ latestSource fv ers, r2.uid = r.uid ∧ r2.src.eventTs = r.src.eventTs := by
  by_cases hc : fv.createdCol
  case neg =>
    refine ⟨r, ?_, rfl, rfl⟩
    unfold latestSource
    simp only [hc, if_neg]
    simpa using hr
  case pos =>
    have hrg : r ∈ (baseCte fv ers).filter
        (fun x => x.uid == r.uid && x.src.eventTs == r.src.eventTs) :=
      List.mem_filter.mpr ⟨hr, by simp⟩
    have hne : ((baseCte fv ers).filter
        (fun x => x.uid == r.uid && x.src.eventTs == r.src.eventTs)).map (·.src.createdTs)
        ≠ [] := by
      intro h0
      rw [List.map_eq_nil_iff] at h0
      rw [h0] at hrg
      simp at hrg
    obtain ⟨m, hm⟩ : ∃ m, listMax (((baseCte fv ers).filter
        (fun x => x.uid == r.uid && x.src.eventTs == r.src.eventTs)).map (·.src.createdTs))
        = some m := by
      cases h0 : listMax (((baseCte fv ers).filter
          (fun x => x.uid == r.uid && x.src.eventTs == r.src.eventTs)).map (·.src.createdTs)) with
      | none => exact absurd (listMax_eq_none.mp h0) hne
      | some m => exact ⟨m, rfl⟩
    obtain ⟨r2, hr2g, hr2c⟩ := List.mem_map.mp (listMax_mem hm)
    have hr2b : r2 ∈ baseCte fv ers := List.mem_of_mem_filter hr2g
    have hkey := (List.mem_filter.mp hr2g).2
    simp only [Bool.and_eq_true, beq_iff_eq] at hkey
    refine ⟨r2, ?_, hkey.1, hkey.2⟩
    unfold latestSource
    simp only [hc, if_pos]
    apply List.mem_filter.mpr
    refine ⟨hr2b, ?_⟩
    apply List.any_eq_true.mpr
    refine ⟨(r.uid, r.src.eventTs, m), ?_, ?_⟩
    · unfold dedupCte
      apply List.mem_map.mpr
      refine ⟨(r.uid, r.src.eventTs), ?_, ?_⟩
      · rw [List.mem_dedup]
        exact List.mem_map.mpr ⟨r, hr, rfl⟩
      · show (r.uid, r.src.eventTs,
          (listMax (((baseCte fv ers).filter
            (fun x => x.uid == r.uid && x.src.eventTs == r.src.eventTs)).map
              (·.src.createdTs))).getD 0) = (r.uid, r.src.eventTs, m)
        rw [hm]
        rfl
    · simp [hkey.1, hkey.2, hr2c]

theorem base_le_latestE {fv : FeatureView} {ers : List EntityRow} {b : BaseRow}
    (hb : b ∈ baseCte fv ers) :
    ∃ m, listMax (((latestSource fv ers).filter (fun r => r.uid == b.uid)).map (·.src.eventTs))
        = some m ∧ b.src.eventTs ≤ m := by
  obtain ⟨r2, hr2, hu2, he2⟩ := latestSource_cover hb
  have hr2f : r2 ∈ (latestSource fv ers).filter (fun r => r.uid == b.uid) :=
    List.mem_filter.mpr ⟨hr2, by simp [hu2]⟩
  have hmm : r2.src.eventTs ∈ ((latestSource fv ers).filter
      (fun r => r.uid == b.uid)).map (·.src.eventTs) :=
    List.mem_map_of_mem (·.src.eventTs) hr2f
  cases hlm : listMax (((latestSource fv ers).filter
      (fun r => r.uid == b.uid)).map (·.src.eventTs)) with
  | none =>
    rw [listMax_eq_none.mp hlm] at hmm
    simp at hmm
  | some m => exact ⟨m, rfl, he2 ▸ le_listMax hlm hmm⟩

theorem latestCte_shape {fv : FeatureView} {ers : List EntityRow}
    {p : String × Int × Option Int} (hp : p ∈ latestCte fv ers) :
    p.1 ∈ ((latestSource fv ers).map (·.uid)).dedup ∧
    p.2.1 = (listMax (((latestSource fv ers).filter
      (fun r => r.uid == p.1)).map (·.src.eventTs))).getD 0 ∧
    p.2.2 = (if fv.createdCol then
      some ((((latestSource fv ers).filter (fun r => r.uid == p.1)).map (·.src.createdTs)).headD 0)
     else none) := by
  unfold latestCte at hp
  obtain ⟨u, hu, rfl⟩ := List.mem_map.mp hp
  exact ⟨hu, rfl, rfl⟩

theorem find?_map_key_none {β : Type} (us : List String) (F : String → β) (u : String)
    (hu : u ∉ us) : (us.map (fun x => (x, F x))).find? (fun p => p.1 == u) = none := by
  induction us with
  | nil => rfl
  | cons x t ih =>
    simp only [List.map_cons, List.find?_cons]
    have hx : x ≠ u := fun h => hu (h ▸ List.mem_cons_self x t)
    rw [show ((x, F x).1 == u) = false from beq_false_of_ne hx]
    exact ih (fun h => hu (List.mem_cons_of_mem x h))

theorem latestCte_find?_none {fv : FeatureView} {ers : List EntityRow} {u : String}
    (hu : u ∉ (latestSource fv ers).map (·.uid)) :
    (latestCte fv ers).find? (fun p => p.1 == u) = none := by
  unfold latestCte
  exact find?_map_key_none _ _ u (fun h => hu (List.mem_dedup.mp h))

theorem mem_cleanedCte {fv : FeatureView} {ers : List EntityRow} {b : BaseRow}
    (hb : b ∈ cleanedCte fv ers) :
    b ∈ baseCte fv ers ∧
    ∃ p ∈ latestCte fv ers, p.1 = b.uid ∧ b.src.eventTs = p.2.1 ∧
      (fv.createdCol = true → some b.src.createdTs = p.2.2) := by
  unfold cleanedCte at hb
  have h1 := List.mem_of_mem_filter hb
  have h2 := (List.mem_filter.mp hb).2
  refine ⟨h1, ?_⟩
  cases hfind : (latestCte fv ers).find? (fun p => p.1 == b.uid) with
  | none =>
    rw [hfind] at h2
    simp at h2
  | some p =>
    rw [hfind] at h2
    have hpmem := List.mem_of_find?_eq_some hfind
    have hppred := List.find?_some hfind
    simp only [beq_iff_eq] at hppred
    simp only [Bool.and_eq_true, beq_iff_eq, Bool.or_eq_true, Bool.not_eq_eq_eq_not,
      Bool.not_true, Option.some.injEq] at h2
    refine ⟨p, hpmem, hppred, h2.1, fun hcc => ?_⟩
    rcases h2.2 with hfalse | hcreated
    · rw [hcc] at hfalse
      cases hfalse
    · rw [hcreated]

theorem cleanedCte_subset {fv : FeatureView} {ers : List EntityRow} {b : BaseRow}
    (hb : b ∈ cleanedCte fv ers) : b ∈ baseCte fv ers :=
  (mem_cleanedCte hb).1

theorem listProd_mem_get? {ls : List (List (Option Int))} {l : List (Option Int)}
    (h : l ∈ listProd ls) : ∀ (i : Nat) (x : Option Int), l[i]? = some x →
      ∃ L, ls[i]? = some L ∧ x ∈ L := by
  induction ls generalizing l with
  | nil =>
    intro i x hx
    simp only [listProd, List.mem_singleton] at h
    subst h
    simp at hx
  | cons hd tl ih =>
    simp only [listProd, List.mem_flatMap, List.mem_map] at h
    obtain ⟨a, ha, r, hr, rfl⟩ := h
    intro i x hx
    cases i with
    | zero =>
      simp only [List.getElem?_cons_zero, Option.some.injEq] at hx
      subst hx
      exact ⟨hd, by simp, ha⟩
    | succ j =>
      simp only [List.getElem?_cons_succ] at hx
      obtain ⟨L, hL, hxL⟩ := ih hr j x hx
      exact ⟨L, by simpa using hL, hxL⟩

theorem getElem?_some_lt {α : Type} {l : List α} {i : Nat} {a : α}
    (h : l[i]? = some a) : i < l.length := by
  by_contra hge
  rw [List.getElem?_eq_none (by omega)] at h
  cases h

theorem countP_filterMap_group_zero (fv : FeatureView) (s : SourceRow) (e0 : EntityRow)
    (Q : BaseRow → Bool) :
    ∀ (l : List EntityRow), (∀ x ∈ l, entityRowUniqueId x ≠ entityRowUniqueId e0) →
      (l.filterMap (fun e => if joinPredB fv s e then
        some (⟨s, e.ts, entityRowUniqueId e⟩ : BaseRow) else none)).countP
        (fun b => b.uid == entityRowUniqueId e0 && Q b) = 0 := by
  intro l
  induction l with
  | nil => intro _; rfl
  | cons x t ih =>
    intro hl
    have hx := hl x (List.mem_cons_self x t)
    have ht := fun y hy => hl y (List.mem_cons_of_mem x hy)
    cases hj : joinPredB fv s x with
    | false =>
      rw [List.filterMap_cons]
      simp only [hj, Bool.false_eq_true, if_false]
      exact ih ht
    | true =>
      rw [List.filterMap_cons]
      simp only [hj, if_true]
      rw [List.countP_cons, ih ht]
      simp [beq_false_of_ne hx]

theorem countP_filterMap_group (fv : FeatureView) (s : SourceRow) (e0 : EntityRow)
    (Q : BaseRow → Bool) :
    ∀ (l : List EntityRow), l.Nodup → e0 ∈ l →
      (∀ x ∈ l, entityRowUniqueId x = entityRowUniqueId e0 → x = e0) →
      (l.filterMap (fun e => if joinPredB fv s e then
        some (⟨s, e.ts, entityRowUniqueId e⟩ : BaseRow) else none)).countP
        (fun b => b.uid == entityRowUniqueId e0 && Q b)
      = if joinPredB fv s e0 && Q ⟨s, e0.ts, entityRowUniqueId e0⟩ then 1 else 0 := by
  intro l
  induction l with
  | nil =>
    intro _ h0 _
    simp at h0
  | cons x t ih =>
    intro hnd he0 hprop
    by_cases hx : x = e0
    · subst hx
      have htz : ∀ y ∈ t, entityRowUniqueId y ≠ entityRowUniqueId x := by
        intro y hy heq
        have hyx : y = x := hprop y (List.mem_cons_of_mem x hy) heq
        subst hyx
        exact (List.nodup_cons.mp hnd).1 hy
      cases hj : joinPredB fv s x with
      | false =>
        rw [List.filterMap_cons]
        simp only [hj, Bool.false_eq_true, if_false]
        rw [countP_filterMap_group_zero fv s x Q t htz]
        simp [hj]
      | true =>
        rw [List.filterMap_cons]
        simp only [hj, if_true]
        rw [List.countP_cons, countP_filterMap_group_zero fv s x Q t htz]
        cases hQ : Q ⟨s, x.ts, entityRowUniqueId x⟩ <;> simp [hj, hQ]
    · have hux : entityRowUniqueId x ≠ entityRowUniqueId e0 :=
        fun h => hx (hprop x (List.mem_cons_self x t) h)
      have he0t : e0 ∈ t := (List.mem_cons.mp he0).resolve_left (fun h => hx h.symm)
      have ihv := ih (List.nodup_cons.mp hnd).2 he0t
        (fun y hy => hprop y (List.mem_cons_of_mem x hy))
      cases hj : joinPredB fv s x with
      | false =>
        rw [List.filterMap_cons]
        simp only [hj, Bool.false_eq_true, if_false]
        exact ihv
      | true =>
        rw [List.filterMap_cons]
        simp only [hj, if_true]
        rw [List.countP_cons, ihv]
        simp [beq_false_of_ne hux]

theorem countP_base (fv : FeatureView) (ers : List EntityRow) (e0 : EntityRow)
    (hinj : ∀ e1 ∈ ers, ∀ e2 ∈ ers, entityRowUniqueId e1 = entityRowUniqueId e2 → e1 = e2)
    (he0 : e0 ∈ ers) (Q : BaseRow → Bool) :
    (baseCte fv ers).countP (fun b => b.uid == entityRowUniqueId e0 && Q b)
      = (subqueryCte fv ers).countP
          (fun s => joinPredB fv s e0 && Q ⟨s, e0.ts, entityRowUniqueId e0⟩) := by
  unfold baseCte
  rw [countP_flatMap]
  have hfun : ∀ s ∈ subqueryCte fv ers,
      ((fvEntityDataframe ers).filterMap (fun e => if joinPredB fv s e then
        some (⟨s, e.ts, entityRowUniqueId e⟩ : BaseRow) else none)).countP
        (fun b => b.uid == entityRowUniqueId e0 && Q b)
      = if joinPredB fv s e0 && Q ⟨s, e0.ts, entityRowUniqueId e0⟩ then 1 else 0 :=
    fun s _ => countP_filterMap_group fv s e0 Q (fvEntityDataframe ers)
      (List.nodup_dedup ers) (List.mem_dedup.mpr he0)
      (fun x hx hux => hinj x (List.mem_dedup.mp hx) e0 he0 hux)
  rw [List.map_eq_map_iff.mpr hfun, sum_map_ite]

theorem countP_subquery (fv : FeatureView) (ers : List EntityRow) (e0 : EntityRow)
    (he0 : e0 ∈ ers) (P : SourceRow → Bool)
    (hP : ∀ s, P s = true → joinPredB fv s e0 = true) :
    (subqueryCte fv ers).countP P = fv.rows.countP P := by
  obtain ⟨mx, mn, hmx, hmn⟩ := entityTs_max_min he0
  unfold subqueryCte
  rw [hmx, hmn]
  rw [countP_filter']
  apply countP_congr'
  intro s _
  cases hps : P s with
  | false => simp
  | true =>
    have hpre := prefilter_of_joinPred hmx hmn he0 (hP s hps)
    simp only [hpre, hps, Bool.and_self]

theorem latestGroup_eventTs_equiv (fv : FeatureView) (ers : List EntityRow) (e0 : EntityRow)
    (hinj : ∀ e1 ∈ ers, ∀ e2 ∈ ers, entityRowUniqueId e1 = entityRowUniqueId e2 → e1 = e2)
    (he0 : e0 ∈ ers) :
    ∀ x : Int, (x ∈ ((latestSource fv ers).filter
        (fun r => r.uid == entityRowUniqueId e0)).map (·.src.eventTs))
      ↔ x ∈ (qualRows fv e0).map (·.eventTs) := by
  intro x
  constructor
  · intro hx
    obtain ⟨r, hrf, rfl⟩ := List.mem_map.mp hx
    have hrl := List.mem_of_mem_filter hrf
    have hru : r.uid = entityRowUniqueId e0 := by
      have h2 := (List.mem_filter.mp hrf).2
      simpa using h2
    obtain ⟨s, hs, hpred, hreq⟩ := mem_base_uid hinj he0 (latestSource_subset hrl) hru
    apply List.mem_map.mpr
    refine ⟨s, List.mem_filter.mpr ⟨hs, hpred⟩, ?_⟩
    rw [hreq]
  · intro hx
    obtain ⟨s, hsq, rfl⟩ := List.mem_map.mp hx
    have hs : s ∈ fv.rows := List.mem_of_mem_filter hsq
    have hpred : joinPredB fv s e0 = true := (List.mem_filter.mp hsq).2
    obtain ⟨r2, hr2, hu2, he2⟩ := latestSource_cover (base_of_qual he0 hs hpred)
    apply List.mem_map.mpr
    refine ⟨r2, List.mem_filter.mpr ⟨hr2, by simp [hu2]⟩, ?_⟩
    exact he2

theorem cleaned_group_count (fv : FeatureView) (ers : List EntityRow) (e0 : EntityRow)
    (hinj : ∀ e1 ∈ ers, ∀ e2 ∈ ers, entityRowUniqueId e1 = entityRowUniqueId e2 → e1 = e2)
    (he0 : e0 ∈ ers)
    (hTop : ∀ c : Int, fv.rows.countP (fun s => joinPredB fv s e0 &&
        (some s.eventTs == maxQualTs fv e0) && (!fv.createdCol || s.createdTs == c)) ≤ 1) :
    (cleanedCte fv ers).countP (fun b => b.uid == entityRowUniqueId e0) ≤ 1 := by
  unfold cleanedCte
  rw [countP_filter']
  cases hfind : (latestCte fv ers).find? (fun p => p.1 == entityRowUniqueId e0) with
  | none =>
    refine le_trans (Nat.le_of_eq (List.countP_eq_zero.mpr ?_)) (Nat.zero_le 1)
    intro b hb hcontra
    obtain ⟨hcond, hbu⟩ := Bool.and_eq_true_iff.mp hcontra
    have hbeq : b.uid = entityRowUniqueId e0 := eq_of_beq hbu
    rw [hbeq, hfind] at hcond
    cases hcond
  | some p =>
    have hpmem := List.mem_of_find?_eq_some hfind
    have hp1 : p.1 = entityRowUniqueId e0 := by
      have h2 := List.find?_some hfind
      simpa using h2
    obtain ⟨hpuid, hpE, hpC⟩ := latestCte_shape hpmem
    have hu_mem : entityRowUniqueId e0 ∈ (latestSource fv ers).map (·.uid) := by
      rw [← hp1]
      exact List.mem_dedup.mp hpuid
    obtain ⟨r0, hr0, hr0u⟩ := List.mem_map.mp hu_mem
    have hr0f : r0 ∈ (latestSource fv ers).filter
        (fun r => r.uid == entityRowUniqueId e0) :=
      List.mem_filter.mpr ⟨hr0, by simp [hr0u]⟩
    obtain ⟨m, hm⟩ : ∃ m, listMax (((latestSource fv ers).filter
        (fun r => r.uid == entityRowUniqueId e0)).map (·.src.eventTs)) = some m := by
      cases h0 : listMax (((latestSource fv ers).filter
          (fun r => r.uid == entityRowUniqueId e0)).map (·.src.eventTs)) with
      | none =>
        rw [listMax_eq_none] at h0
        rw [List.map_eq_nil_iff] at h0
        rw [h0] at hr0f
        simp at hr0f
      | some m => exact ⟨m, rfl⟩
    rw [hp1] at hpE
    rw [hm] at hpE
    have hEm : p.2.1 = m := by simpa using hpE
    have hmax : maxQualTs fv e0 = some m := by
      unfold maxQualTs
      exact ((listMax_congr (latestGroup_eventTs_equiv fv ers e0 hinj he0)).symm).trans hm
    have hcongr : ∀ b ∈ baseCte fv ers,
        ((match (latestCte fv ers).find? (fun q => q.1 == b.uid) with
          | none => false
          | some q => b.src.eventTs == q.2.1 &&
              (!fv.createdCol || some b.src.createdTs == q.2.2)) && (b.uid == entityRowUniqueId e0))
        = ((b.uid == entityRowUniqueId e0) &&
            (b.src.eventTs == p.2.1 && (!fv.createdCol || some b.src.createdTs == p.2.2))) := by
      intro b _
      cases hbu : b.uid == entityRowUniqueId e0 with
      | false => simp
      | true =>
        have hbeq : b.uid = entityRowUniqueId e0 := eq_of_beq hbu
        rw [hbeq, hfind]
        rw [Bool.and_comm]
    rw [countP_congr' _ _ _ hcongr]
    rw [countP_base fv ers e0 hinj he0
      (fun b => b.src.eventTs == p.2.1 && (!fv.createdCol || some b.src.createdTs == p.2.2))]
    rw [countP_subquery fv ers e0 he0 _ (fun s hs => (Bool.and_eq_true_iff.mp hs).1)]
    refine le_trans (List.countP_mono_left ?_) (hTop (p.2.2.getD 0))
    intro s hsmem hPs
    simp only [Bool.and_eq_true, Bool.or_eq_true, beq_iff_eq] at hPs
    obtain ⟨hj, hev, hcre⟩ := hPs
    simp only [Bool.and_eq_true, Bool.or_eq_true, beq_iff_eq]
    refine ⟨⟨hj, ?_⟩, ?_⟩
    · rw [hmax, hev, hEm]
    · rcases hcre with hcf | hcs
      · exact Or.inl hcf
      · refine Or.inr ?_
        rw [← hcs]
        rfl

theorem leftJoin_length_one (c : List BaseRow) (u : String)
    (h : c.countP (fun b => b.uid == u) ≤ 1) : (leftJoinFeatures c u).length = 1 := by
  unfold leftJoinFeatures
  split
  · rfl
  · rename_i hne
    rw [List.length_map]
    have hlen := List.countP_eq_length_filter (fun b => b.uid == u) c
    have hpos : (c.filter (fun b => b.uid == u)).length ≠ 0 := by
      intro h0
      rw [List.length_eq_zero] at h0
      exact hne (by rw [h0]; rfl)
    omega

/-! ## Claim theorems: upload, retrieval job, pyhive variant, query text -/

/-- C6: for every entity DataFrame containing a column whose type has no
backend mapping, the upload raises the unsupported-column-type error and the
statement trace issued on the connection up to the error contains no
`INSERT` statement (here: no statement at all — the type-mapping loop runs
before the cursor is even opened, so not even the `CREATE TABLE` has been
issued). -/
theorem C6_unsupported_type_before_insert (cfgChunk : Int) (df : EntityDf)
    (hbad : ∃ c ∈ df.cols, pa_to_hive_value_type c.dtype = none) :
    (uploadRun cfgChunk df).2.isSome = true ∧
    ∀ n, HiveStmt.insertChunk n ∉ (uploadRun cfgChunk df).1 := by
  obtain ⟨t, ht⟩ := mapSchema_error hbad
  unfold uploadRun
  rw [ht]
  exact ⟨rfl, fun n h => by simp at h⟩

/-- Witness for C6 at a concrete DataFrame with a nested-list column. -/
theorem C6_witness :
    (∃ c ∈ dfBadW.cols, pa_to_hive_value_type c.dtype = none) ∧
    ((uploadRun defaultChunkSize dfBadW).2.isSome = true ∧
      ∀ n, HiveStmt.insertChunk n ∉ (uploadRun defaultChunkSize dfBadW).1) :=
  ⟨by decide, C6_unsupported_type_before_insert defaultChunkSize dfBadW (by decide)⟩

/-- C7: uploading an N-row DataFrame whose column types are all mapped, with
configured chunk size C, issues exactly one `CREATE TABLE` followed by the
`INSERT` statements of the chunk list, which together carry exactly N rows;
when C > 0 there are exactly ceil(N/C) inserts, and a configured C ≤ 0
yields a single chunk holding all N rows. -/
theorem C7_chunked_upload_shape (cfgChunk : Int) (df : EntityDf)
    (hok : ∀ c ∈ df.cols, (pa_to_hive_value_type c.dtype).isSome = true) :
    ∃ sizes : List Nat,
      (uploadRun cfgChunk df).1 = HiveStmt.createTable :: sizes.map HiveStmt.insertChunk ∧
      (uploadRun cfgChunk df).2 = none ∧
      sizes.sum = df.nrows ∧
      (0 < cfgChunk → sizes.length = (df.nrows + cfgChunk.toNat - 1) / cfgChunk.toNat) ∧
      (cfgChunk ≤ 0 → 0 < df.nrows → sizes = [df.nrows]) := by
  obtain ⟨r, hr⟩ := mapSchema_ok hok
  refine ⟨chunkSizes (effectiveChunkSize cfgChunk df.nrows) df.nrows, ?_, ?_, ?_, ?_, ?_⟩
  · unfold uploadRun; rw [hr]
  · unfold uploadRun; rw [hr]
  · apply chunkSizes_sum
    intro h0
    unfold effectiveChunkSize at h0
    split at h0
    · exact h0
    · omega
  · intro hpos
    have he : effectiveChunkSize cfgChunk df.nrows = cfgChunk.toNat := by
      unfold effectiveChunkSize
      split
      · omega
      · rfl
    rw [he]
    exact chunkSizes_length cfgChunk.toNat df.nrows (by omega)
  · intro hneg hn
    have he : effectiveChunkSize cfgChunk df.nrows = df.nrows := by
      unfold effectiveChunkSize
      simp [hneg]
    rw [he]
    exact chunkSizes_self df.nrows hn

/-- Witness for C7: three rows at chunk size 2 give chunks [2, 1]. -/
theorem C7_witness :
    (∀ c ∈ dfOkW.cols, (pa_to_hive_value_type c.dtype).isSome = true) ∧
    (∃ sizes : List Nat,
      (uploadRun 2 dfOkW).1 = HiveStmt.createTable :: sizes.map HiveStmt.insertChunk ∧
      (uploadRun 2 dfOkW).2 = none ∧
      sizes.sum = dfOkW.nrows ∧
      (0 < (2 : Int) → sizes.length = (dfOkW.nrows + (2 : Int).toNat - 1) / (2 : Int).toNat) ∧
      ((2 : Int) ≤ 0 → 0 < dfOkW.nrows → sizes = [dfOkW.nrows])) :=
  ⟨by decide, C7_chunked_upload_shape 2 dfOkW (by decide)⟩

/-- C9: when the caller's DataFrame index is not already the default
RangeIndex, `_upload_entity_df` leaves the caller-visible object changed:
line 259 resets the index in place. -/
theorem C9_entity_df_mutated (df : EntityDf)
    (h : df.index ≠ defaultRangeIndex df.nrows) :
    uploadCallerVisibleDf df ≠ df ∧
    (uploadCallerVisibleDf df).index = defaultRangeIndex df.nrows := by
  refine ⟨?_, rfl⟩
  intro he
  have hidx := congrArg EntityDf.index he
  exact h hidx.symm

/-- Witness for C9 at a one-row DataFrame indexed [5]. -/
theorem C9_witness :
    dfIdxW.index ≠ defaultRangeIndex dfIdxW.nrows ∧
    (uploadCallerVisibleDf dfIdxW ≠ dfIdxW ∧
      (uploadCallerVisibleDf dfIdxW).index = defaultRangeIndex dfIdxW.nrows) :=
  ⟨by decide, C9_entity_df_mutated dfIdxW (by decide)⟩

/-- C8: in the pyhive variant, the string-entity schema probe constructs
`HiveRetrievalJob(conn, "SELECT * FROM ... LIMIT 1")` against the
`(query, conn)` constructor: the connection ends up stored as the query and
the probe SQL as the connection, so `to_df` cannot execute the intended
probe query (it fails for every input). -/
theorem C8_pyhive_probe_swapped (connId : Nat) (tableName : String) :
    (schemaProbeJob connId tableName).query = ConnOrStr.conn connId ∧
    (schemaProbeJob connId tableName).conn = ConnOrStr.str (probeSql tableName) ∧
    pyhiveToDfExecutedQuery (schemaProbeJob connId tableName) = none :=
  ⟨rfl, rfl, rfl⟩

/-- C4, counterexample: at a concrete well-typed DataFrame, when statement
execution raises during materialization, the error propagates but the
`DROP TABLE` teardown is never issued — the claim that teardown still runs
is false on this code (the `yield` in `query_generator` is not guarded by
`try`/`finally`). -/
theorem C4_counterexample :
    (historicalToArrowTrace defaultChunkSize dfJobW true).2 = false ∧
    HiveStmt.dropTable ∉ (historicalToArrowTrace defaultChunkSize dfJobW true).1 := by
  decide

/-- C4, amended: for every historical-retrieval job whose setup succeeds,
the staging-table teardown runs exactly when materialization succeeds; when
statement execution or result fetching raises, the `DROP TABLE` is not
issued and the error propagates. -/
theorem C4_amended (cfgChunk : Int) (df : EntityDf) (bodyFails : Bool)
    (hok : ∀ c ∈ df.cols, (pa_to_hive_value_type c.dtype).isSome = true) :
    (HiveStmt.dropTable ∈ (historicalToArrowTrace cfgChunk df bodyFails).1 ↔
      bodyFails = false) ∧
    ((historicalToArrowTrace cfgChunk df bodyFails).2 = true ↔ bodyFails = false) := by
  obtain ⟨r, hr⟩ := mapSchema_ok hok
  have hup : uploadRun cfgChunk df =
      (HiveStmt.createTable ::
        (chunkSizes (effectiveChunkSize cfgChunk df.nrows) df.nrows).map HiveStmt.insertChunk,
       none) := by
    unfold uploadRun
    rw [hr]
  unfold historicalToArrowTrace
  rw [hup]
  unfold runWithCtxManager queryGeneratorYieldGuarded
  cases bodyFails with
  | false => simp
  | true => simp [List.mem_map]

/-- Witness for C4's amended claim on a successful materialization. -/
theorem C4_amended_witness :
    (∀ c ∈ dfJobW.cols, (pa_to_hive_value_type c.dtype).isSome = true) ∧
    ((HiveStmt.dropTable ∈ (historicalToArrowTrace defaultChunkSize dfJobW false).1 ↔
        false = false) ∧
      ((historicalToArrowTrace defaultChunkSize dfJobW false).2 = true ↔ false = false)) :=
  ⟨by decide, C4_amended defaultChunkSize dfJobW false (by decide)⟩

/-- C5: with zero feature views the compiled query is not the identity on
the entity input: semantically the template would still append the
`entity_timestamp` alias column to every row, and syntactically the
`entity_dataframe` CTE keeps its trailing comma with no further CTE
following, leaving a dangling comma right before the final `SELECT` —
unexecutable SQL. -/
theorem C5_zero_feature_views :
    (∀ ers : List EntityRow,
      pointInTimeJoin [] ers = ers.map (fun e => ⟨e, e.ts, []⟩)) ∧
    danglingCteComma [] = true := by
  constructor
  · intro ers
    show (ers.flatMap fun e => [(⟨e, e.ts, []⟩ : OutRow)]) = _
    induction ers with
    | nil => rfl
    | cons e t ih =>
      simp only [List.flatMap_cons, List.singleton_append, List.map_cons]
      rw [ih]
  · decide

/-- C10: the surrogate key is not injective: the entity rows
(["ab","c"], 10) and (["a","bc"], 10) have different keys but the same
`entity_row_unique_id`, and the final join conflates their resolved rows —
the second row receives the feature value 42 of a backing row that matches
no backing row with its own keys. -/
theorem C10_surrogate_collision :
    entityRowUniqueId ⟨["ab", "c"], 10⟩ = entityRowUniqueId ⟨["a", "bc"], 10⟩ ∧
    (["ab", "c"] : List String) ≠ ["a", "bc"] ∧
    pointInTimeJoin [fvC10] ersC10 =
      [⟨⟨["ab", "c"], 10⟩, 10, [some 42]⟩, ⟨⟨["a", "bc"], 10⟩, 10, [some 42]⟩] ∧
    (∀ s ∈ fvC10.rows, s.keys ≠ ["a", "bc"]) := by
  decide

/-- C1, counterexample: at a concrete input with colliding surrogate keys,
the output attaches feature value 7 to the entity row (["x","yz"], 20)
although the view's backing table has no row matching that row's entity
keys at all — the claim's "comes from a backing row matching all its entity
keys" fails. -/
theorem C1_counterexample :
    pointInTimeJoin [fvC1] ersC1 =
      [⟨⟨["xy", "z"], 20⟩, 20, [some 7]⟩, ⟨⟨["x", "yz"], 20⟩, 20, [some 7]⟩] ∧
    (∀ s ∈ fvC1.rows, s.keys ≠ ["x", "yz"]) := by
  decide

/-- C2, counterexample: one entity row, two backing rows tied at the
maximum qualifying event timestamp (no created-timestamp column): the
output has two rows for one input row — output row count differs from the
input row count. -/
theorem C2_counterexample :
    ersC2.length = 1 ∧ (pointInTimeJoin [fvC2] ersC2).length = 2 := by
  decide

/-- C3, failing-input evaluation: for the entity row (["k"], 10) the
maximum qualifying event timestamp is 7 and the unique backing row there is
(createdTs 3, feature 200) — the claim (and the template's own step-2/3
comments) expect 200 in the output.  The code's `__latest` CTE takes
`ANY_VALUE(created_timestamp)` over the per-event-timestamp maxima {9, 3};
resolving it to the first group member (9, from event timestamp 5) makes
the `__cleaned` join empty and the output NULL. -/
theorem C3_lost_update_eval :
    maxQualTs fvC3 ⟨["k"], 10⟩ = some 7 ∧
    (∀ s ∈ fvC3.rows, s.eventTs = 7 → s.createdTs = 3 ∧ s.feature = 200) ∧
    pointInTimeJoin [fvC3] ersC3 = [⟨⟨["k"], 10⟩, 10, [none]⟩] := by
  decide

/-- C1, amended: provided the `entity_row_unique_id` surrogate is injective
on the entity input (no CONCAT collisions), every non-NULL feature value in
the output comes from a backing row of the corresponding feature view that
matches all the entity keys of its output row, lies in the point-in-time
window (`event_timestamp <= entity_timestamp`, and when TTL = T > 0 also
`event_timestamp >= entity_timestamp - T`; TTL = 0 imposes no lower bound),
and has the maximum event timestamp among all such qualifying rows. -/
theorem C1_amended (fvs : List FeatureView) (ers : List EntityRow)
    (hinj : ∀ e1 ∈ ers, ∀ e2 ∈ ers, entityRowUniqueId e1 = entityRowUniqueId e2 → e1 = e2)
    (o : OutRow) (ho : o ∈ pointInTimeJoin fvs ers)
    (i : Nat) (v : Int) (hv : o.features[i]? = some (some v)) :
    ∃ fv, fvs[i]? = some fv ∧ ∃ s ∈ fv.rows,
      s.keys = o.entity.keys ∧ qualifies fv s o.entity ∧ v = s.feature ∧
      ∀ t ∈ fv.rows, t.keys = o.entity.keys → qualifies fv t o.entity →
        t.eventTs ≤ s.eventTs := by
  unfold pointInTimeJoin at ho
  rw [List.mem_flatMap] at ho
  obtain ⟨e, he, ho2⟩ := ho
  rw [List.mem_map] at ho2
  obtain ⟨fs, hfs, rfl⟩ := ho2
  have hv2 : fs[i]? = some (some v) := hv
  obtain ⟨L, hLi, hmemL⟩ := listProd_mem_get? hfs i (some v) hv2
  rw [List.getElem?_map] at hLi
  cases hfvi : fvs[i]? with
  | none =>
    rw [hfvi] at hLi
    simp at hLi
  | some fv =>
    rw [hfvi] at hLi
    simp only [Option.map_some', Option.some.injEq] at hLi
    subst hLi
    refine ⟨fv, rfl, ?_⟩
    unfold leftJoinFeatures at hmemL
    split at hmemL
    · simp at hmemL
    · rw [List.mem_map] at hmemL
      obtain ⟨b, hbf, hbv⟩ := hmemL
      have hbcl : b ∈ cleanedCte fv ers := List.mem_of_mem_filter hbf
      have hbu : b.uid = entityRowUniqueId e := by
        have h2 := (List.mem_filter.mp hbf).2
        simpa using h2
      obtain ⟨hbase, p, hp, hp1, hpe, -⟩ := mem_cleanedCte hbcl
      obtain ⟨s, hs, hpred, hbeq⟩ := mem_base_uid hinj he hbase hbu
      have hsrc : b.src = s := by rw [hbeq]
      have hfeat : v = s.feature := by
        rw [← hsrc]
        exact (Option.some.injEq _ _ ▸ hbv).symm
      obtain ⟨hkeys, hqual⟩ := joinPredB_iff.mp hpred
      refine ⟨s, hs, hkeys, hqual, hfeat, ?_⟩
      intro t ht hkt hqt
      have hjt : joinPredB fv t e = true := joinPredB_iff.mpr ⟨hkt, hqt⟩
      have hbt := base_of_qual he ht hjt
      obtain ⟨m, hm, hle⟩ := base_le_latestE hbt
      have hm2 : listMax (((latestSource fv ers).filter
          (fun r => r.uid == entityRowUniqueId e)).map (·.src.eventTs)) = some m := hm
      have hle2 : t.eventTs ≤ m := hle
      have hshape := (latestCte_shape hp).2.1
      rw [hp1, hbu] at hshape
      rw [hm2] at hshape
      have hse : s.eventTs = p.2.1 := by
        rw [← hsrc]
        exact hpe
      rw [hse, hshape]
      exact hle2

/-- Witness for C1's amended claim: one entity row, two qualifying backing
rows; the output value 5 comes from the one at the maximal event
timestamp 9. -/
theorem C1_amended_witness :
    (∀ e1 ∈ ersW1, ∀ e2 ∈ ersW1, entityRowUniqueId e1 = entityRowUniqueId e2 → e1 = e2) ∧
    oW ∈ pointInTimeJoin fvsW2 ersW1 ∧
    oW.features[0]? = some (some 5) ∧
    (∃ fv, fvsW2[0]? = some fv ∧ ∃ s ∈ fv.rows,
      s.keys = oW.entity.keys ∧ qualifies fv s oW.entity ∧ 5 = s.feature ∧
      ∀ t ∈ fv.rows, t.keys = oW.entity.keys → qualifies fv t oW.entity →
        t.eventTs ≤ s.eventTs) :=
  ⟨by decide, by decide, by decide,
    C1_amended fvsW2 ersW1 (by decide) oW (by decide) 0 5 (by decide)⟩

/-- C2, amended: provided the surrogate key is injective on the entity
input and, per entity row and feature view, at most one qualifying backing
row attains the maximum qualifying event timestamp (when a
created-timestamp column is configured: at most one per created-timestamp
value), the output has exactly one row per input entity row — duplicates
included — and an entity row with no qualifying backing row for some view
carries NULL in that view's feature column. -/
theorem C2_amended (fvs : List FeatureView) (ers : List EntityRow)
    (hinj : ∀ e1 ∈ ers, ∀ e2 ∈ ers, entityRowUniqueId e1 = entityRowUniqueId e2 → e1 = e2)
    (hTop : ∀ e ∈ ers, ∀ fv ∈ fvs, ∀ c : Int,
      fv.rows.countP (fun s => joinPredB fv s e &&
        (some s.eventTs == maxQualTs fv e) && (!fv.createdCol || s.createdTs == c)) ≤ 1) :
    (pointInTimeJoin fvs ers).length = ers.length ∧
    ∀ e ∈ ers, ∀ (i : Nat) (fv : FeatureView), fvs[i]? = some fv →
      (∀ s ∈ fv.rows, joinPredB fv s e = false) →
      ∀ o ∈ pointInTimeJoin fvs ers, o.entity = e → o.features[i]? = some none := by
  constructor
  · unfold pointInTimeJoin
    rw [List.length_flatMap]
    have hone : ∀ e ∈ ers, ((listProd (fvs.map (fun fv =>
        leftJoinFeatures (cleanedCte fv ers) (entityRowUniqueId e)))).map
        (fun fs => (⟨e, e.ts, fs⟩ : OutRow))).length = 1 := by
      intro e he
      rw [List.length_map, listProd_length]
      apply List.prod_eq_one
      intro x hx
      rw [List.map_map] at hx
      obtain ⟨fv, hfv, rfl⟩ := List.mem_map.mp hx
      exact leftJoin_length_one _ _ (cleaned_group_count fv ers e hinj he (hTop e he fv hfv))
    simp only [Function.comp_def]
    rw [List.map_eq_map_iff.mpr hone]
    rw [List.map_const', List.sum_const_nat]
    exact Nat.mul_one _
  · intro e he i fv hfvi hnoq o ho hoe
    unfold pointInTimeJoin at ho
    rw [List.mem_flatMap] at ho
    obtain ⟨e2, he2, ho2⟩ := ho
    rw [List.mem_map] at ho2
    obtain ⟨fs, hfs, rfl⟩ := ho2
    have he2e : e2 = e := hoe
    subst he2e
    have hilen : i < fvs.length := getElem?_some_lt hfvi
    have hflen : fs.length = fvs.length := by
      rw [listProd_mem_length hfs, List.length_map]
    have hif : i < fs.length := by omega
    have hx : fs[i]? = some fs[i] := (List.getElem?_eq_some_getElem_iff fs i hif).mpr trivial
    obtain ⟨L, hLi, hxL⟩ := listProd_mem_get? hfs i fs[i] hx
    rw [List.getElem?_map, hfvi] at hLi
    simp only [Option.map_some', Option.some.injEq] at hLi
    subst hLi
    have hempty : (cleanedCte fv ers).filter (fun b => b.uid == entityRowUniqueId e2) = [] := by
      rw [List.filter_eq_nil_iff]
      intro b hb hbu
      have hbu2 : b.uid = entityRowUniqueId e2 := by simpa using hbu
      obtain ⟨s, hsr, hpred, -⟩ := mem_base_uid hinj he (cleanedCte_subset hb) hbu2
      rw [hnoq s hsr] at hpred
      cases hpred
    have hLnone : leftJoinFeatures (cleanedCte fv ers) (entityRowUniqueId e2) = [none] := by
      unfold leftJoinFeatures
      rw [hempty]
      rfl
    rw [hLnone] at hxL
    simp only [List.mem_singleton] at hxL
    show fs[i]? = some none
    rw [hx, hxL]

/-- Witness for C2's amended claim: two entity rows, a single backing row
matching the first; the output has two rows and the second entity row's
feature column is NULL. -/
theorem C2_amended_witness :
    (∀ e1 ∈ ersW, ∀ e2 ∈ ersW, entityRowUniqueId e1 = entityRowUniqueId e2 → e1 = e2) ∧
    (∀ e ∈ ersW, ∀ fv ∈ fvsW, ∀ c : Int,
      fv.rows.countP (fun s => joinPredB fv s e &&
        (some s.eventTs == maxQualTs fv e) && (!fv.createdCol || s.createdTs == c)) ≤ 1) ∧
    ((pointInTimeJoin fvsW ersW).length = ersW.length ∧
      ∀ e ∈ ersW, ∀ (i : Nat) (fv : FeatureView), fvsW[i]? = some fv →
        (∀ s ∈ fv.rows, joinPredB fv s e = false) →
        ∀ o ∈ pointInTimeJoin fvsW ersW, o.entity = e → o.features[i]? = some none) := by
  have hTop : ∀ e ∈ ersW, ∀ fv ∈ fvsW, ∀ c : Int,
      fv.rows.countP (fun s => joinPredB fv s e &&
        (some s.eventTs == maxQualTs fv e) && (!fv.createdCol || s.createdTs == c)) ≤ 1 := by
    intro e he fv hfv c
    have hfv1 : fv = ⟨false, 0, [⟨["1"], 9, 0, 5⟩]⟩ := by
      simpa [fvsW] using hfv
    subst hfv1
    exact le_trans (List.countP_le_length _) (by decide)
  exact ⟨by decide, hTop, C2_amended fvsW ersW (by decide) hTop⟩

end FeastHive
